import Mathlib

/-!
# Verification of `kes log trace` (src/cmd/kes/log.go)

Shallow embedding of the UI-facing portion of `cmd/kes/log.go` from the
`kes` repository, together with proofs and refutations of the specified
properties of its formatters, event loop and exit paths.

Conventions:
* Go `time.Duration` is a signed 64-bit count of nanoseconds; we model it
  as `Int` (no arithmetic in the file ever approaches 2^63, so overflow
  does not arise on the modelled inputs).
* Go strings are modelled as `List Char`.
* Go integer `%` is truncated remainder, i.e. `Int.tmod`.
-/

namespace KesLog

/-- Go `time.Duration`: nanosecond count. -/
abbrev Duration := Int

/-- One nanosecond, `time.Nanosecond`. -/
def nanosecond : Duration := 1

/-- One microsecond, `time.Microsecond`. -/
def microsecond : Duration := 1000

/-- One millisecond, `time.Millisecond`. -/
def millisecond : Duration := 1000000

/-- One second, `time.Second`. -/
def second : Duration := 1000000000

/-- Go `time.Duration.Truncate`:
`func (d Duration) Truncate(m Duration) Duration { if m <= 0 { return d }; return d - d%m }`
where Go `%` is the truncated (toward-zero) remainder. -/
def Duration.goTruncate (d m : Duration) : Duration :=
  if m ≤ 0 then d else d - Int.tmod d m

/-- The duration value rendered in the `Response` cell of the audit table
(`traceAuditLogWithUI`, log.go lines 198-205): the response time is
truncated before rendering, with the truncation unit chosen by magnitude. -/
def respTimeValue (t : Duration) : Duration :=
  if t ≥ second then Duration.goTruncate t (10 * millisecond)
  else if t ≥ millisecond then Duration.goTruncate t (10 * microsecond)
  else Duration.goTruncate t microsecond

/-- Which arm of the `switch` at log.go lines 198-205 a duration selects:
`0` for the `>= time.Second` arm, `1` for the `>= time.Millisecond` arm,
`2` for the default arm. -/
def respTimeBranch (t : Duration) : Nat :=
  if t ≥ second then 0
  else if t ≥ millisecond then 1
  else 2

/-- Unfolding of `respTimeValue` with `≥` spelled as `≤`. -/
theorem respTimeValue_eq (t : Duration) :
    respTimeValue t =
      if second ≤ t then Duration.goTruncate t (10 * millisecond)
      else if millisecond ≤ t then Duration.goTruncate t (10 * microsecond)
      else Duration.goTruncate t microsecond := rfl

/-- Unfolding of `respTimeBranch` with `≥` spelled as `≤`. -/
theorem respTimeBranch_eq (t : Duration) :
    respTimeBranch t = if second ≤ t then 0 else if millisecond ≤ t then 1 else 2 := rfl

/-- Truncated remainder of a negated dividend is the negated remainder. -/
theorem tmod_neg_left (a b : Int) : Int.tmod (-a) b = -Int.tmod a b := by
  rw [Int.tmod_def, Int.tmod_def, Int.neg_tdiv]
  ring

/-- The truncated remainder is smaller than a positive modulus in absolute value. -/
theorem abs_tmod_lt (a : Int) {b : Int} (hb : 0 < b) : |Int.tmod a b| < b := by
  rcases le_or_lt 0 a with h | h
  · rw [abs_of_nonneg (Int.tmod_nonneg b h)]
    exact Int.tmod_lt_of_pos a hb
  · have hrw : Int.tmod a b = -Int.tmod (-a) b := by rw [tmod_neg_left]; ring
    rw [hrw, abs_neg, abs_of_nonneg (Int.tmod_nonneg b (by omega))]
    exact Int.tmod_lt_of_pos _ hb

theorem goTruncate_eq_mul_tdiv (d m : Int) (hm : 0 < m) :
    Duration.goTruncate d m = m * d.tdiv m := by
  unfold Duration.goTruncate
  rw [if_neg (not_le.mpr hm), Int.tmod_def]
  ring

theorem goTruncate_dvd (d m : Int) (hm : 0 < m) : m ∣ Duration.goTruncate d m :=
  ⟨d.tdiv m, goTruncate_eq_mul_tdiv d m hm⟩

theorem sub_goTruncate (d m : Int) (hm : 0 < m) :
    d - Duration.goTruncate d m = Int.tmod d m := by
  unfold Duration.goTruncate
  rw [if_neg (not_le.mpr hm)]
  ring

/-- Truncation never moves a value away from zero. -/
theorem abs_goTruncate_le (d m : Int) (hm : 0 < m) :
    |Duration.goTruncate d m| ≤ |d| := by
  rw [goTruncate_eq_mul_tdiv d m hm]
  have h1 : (m * d.tdiv m).natAbs = m.natAbs * (d.natAbs / m.natAbs) := by
    rw [Int.natAbs_mul, Int.natAbs_tdiv]
    rfl
  have h2 : m.natAbs * (d.natAbs / m.natAbs) ≤ d.natAbs := Nat.mul_div_le _ _
  rw [Int.abs_eq_natAbs, Int.abs_eq_natAbs, h1]
  exact_mod_cast h2

theorem goTruncate_le {d m : Int} (hm : 0 < m) (hd : 0 ≤ d) :
    Duration.goTruncate d m ≤ d := by
  unfold Duration.goTruncate
  rw [if_neg (not_le.mpr hm)]
  exact sub_le_self d (Int.tmod_nonneg m hd)

theorem goTruncate_nonpos {d m : Int} (hm : 0 < m) (hd : d ≤ 0) :
    Duration.goTruncate d m ≤ 0 := by
  rw [goTruncate_eq_mul_tdiv d m hm]
  have h1 : d.tdiv m ≤ 0 := by
    have h2 := Int.tdiv_nonneg (a := -d) (b := m) (by omega) (by omega)
    rw [Int.neg_tdiv] at h2
    omega
  have h3 := mul_le_mul_of_nonneg_left h1 (le_of_lt hm)
  simpa using h3

theorem goTruncate_lower {d m k : Int} (hm : 0 < m) (hd0 : 0 ≤ d) (hk : m * k ≤ d) :
    m * k ≤ Duration.goTruncate d m := by
  rw [goTruncate_eq_mul_tdiv d m hm, Int.tdiv_eq_ediv hd0 (le_of_lt hm)]
  have h1 : k ≤ d / m := by
    rw [Int.le_ediv_iff_mul_le hm]
    linarith
  exact mul_le_mul_of_nonneg_left h1 (le_of_lt hm)

theorem goTruncate_idem (d m : Int) (hm : 0 < m) :
    Duration.goTruncate (Duration.goTruncate d m) m = Duration.goTruncate d m := by
  have h : Int.tmod (Duration.goTruncate d m) m = 0 :=
    Int.tmod_eq_zero_of_dvd (goTruncate_dvd d m hm)
  generalize hY : Duration.goTruncate d m = Y at h ⊢
  unfold Duration.goTruncate
  rw [if_neg (not_le.mpr hm), h, sub_zero]

/-- C5: for every response duration `d`, the duration cell is formatted by
truncating `d` toward zero before rendering: to 10-millisecond resolution
when `d ≥ 1` second, to 10-microsecond resolution when 1 millisecond `≤ d <`
1 second, and to 1-microsecond resolution when `d <` 1 millisecond
(log.go lines 198-205). "Truncate toward zero to resolution `m`" is
characterised by: the result is a multiple of `m`, not farther from zero
than `d`, and within `m` of `d`. -/
theorem respTime_truncation_policy (d : Duration) :
    (second ≤ d →
      (10 * millisecond) ∣ respTimeValue d ∧ respTimeValue d ≤ d ∧
        d - respTimeValue d < 10 * millisecond) ∧
    (millisecond ≤ d → d < second →
      (10 * microsecond) ∣ respTimeValue d ∧ respTimeValue d ≤ d ∧
        d - respTimeValue d < 10 * microsecond) ∧
    (d < millisecond →
      microsecond ∣ respTimeValue d ∧ |respTimeValue d| ≤ |d| ∧
        |d - respTimeValue d| < microsecond) := by
  have hms : (0 : Int) < 10 * millisecond := by decide
  have hus : (0 : Int) < 10 * microsecond := by decide
  have hu : (0 : Int) < microsecond := by decide
  refine ⟨fun h => ?_, fun h1 h2 => ?_, fun h => ?_⟩
  · have hv : respTimeValue d = Duration.goTruncate d (10 * millisecond) := by
      rw [respTimeValue_eq, if_pos h]
    have hd0 : (0 : Int) ≤ d := le_trans (by decide) h
    refine ⟨hv ▸ goTruncate_dvd d _ hms, hv ▸ goTruncate_le hms hd0, ?_⟩
    rw [hv, sub_goTruncate d _ hms]
    exact Int.tmod_lt_of_pos d hms
  · have hv : respTimeValue d = Duration.goTruncate d (10 * microsecond) := by
      rw [respTimeValue_eq, if_neg (not_le.mpr h2), if_pos h1]
    have hd0 : (0 : Int) ≤ d := le_trans (by decide) h1
    refine ⟨hv ▸ goTruncate_dvd d _ hus, hv ▸ goTruncate_le hus hd0, ?_⟩
    rw [hv, sub_goTruncate d _ hus]
    exact Int.tmod_lt_of_pos d hus
  · have hsec : d < second := lt_trans h (by decide)
    have hv : respTimeValue d = Duration.goTruncate d microsecond := by
      rw [respTimeValue_eq, if_neg (not_le.mpr hsec), if_neg (not_le.mpr h)]
    refine ⟨hv ▸ goTruncate_dvd d _ hu, hv ▸ abs_goTruncate_le d _ hu, ?_⟩
    rw [hv, sub_goTruncate d _ hu]
    exact abs_tmod_lt d hu

/-- Witness for `respTime_truncation_policy`: one concrete duration in each
magnitude band (1.23456789s, 5.037777ms, 999ns). -/
theorem respTime_truncation_policy_w :
    ((10 * millisecond) ∣ respTimeValue 1234567890 ∧
      respTimeValue 1234567890 ≤ 1234567890 ∧
      1234567890 - respTimeValue 1234567890 < 10 * millisecond) ∧
    ((10 * microsecond) ∣ respTimeValue 5037777 ∧
      respTimeValue 5037777 ≤ 5037777 ∧
      5037777 - respTimeValue 5037777 < 10 * microsecond) ∧
    (microsecond ∣ respTimeValue 999 ∧ |respTimeValue 999| ≤ |(999 : Int)| ∧
      |(999 : Int) - respTimeValue 999| < microsecond) :=
  ⟨(respTime_truncation_policy 1234567890).1 (by decide),
   (respTime_truncation_policy 5037777).2.1 (by decide) (by decide),
   (respTime_truncation_policy 999).2.2 (by decide)⟩

/-- C8: duration truncation is idempotent: the already-truncated value
selects the same arm of the `switch` at log.go 198-205 and truncating it
again leaves it unchanged, so rendering the truncated duration again
produces the same text. -/
theorem respTime_truncation_idempotent (d : Duration) :
    respTimeBranch (respTimeValue d) = respTimeBranch d ∧
    respTimeValue (respTimeValue d) = respTimeValue d := by
  have hms : (0 : Int) < 10 * millisecond := by decide
  have hus : (0 : Int) < 10 * microsecond := by decide
  have hu : (0 : Int) < microsecond := by decide
  rcases le_or_lt second d with h1 | h1
  · have hd0 : (0 : Int) ≤ d := le_trans (by decide) h1
    have hv : respTimeValue d = Duration.goTruncate d (10 * millisecond) := by
      rw [respTimeValue_eq, if_pos h1]
    have hlow : second ≤ respTimeValue d := by
      rw [hv]
      have hks : (10 * millisecond) * 100 = second := by decide
      have := goTruncate_lower (d := d) (m := 10 * millisecond) (k := 100) hms hd0
        (by rw [hks]; exact h1)
      rw [hks] at this
      exact this
    constructor
    · rw [respTimeBranch_eq, respTimeBranch_eq, if_pos hlow, if_pos h1]
    · rw [respTimeValue_eq d, if_pos h1, ← hv, respTimeValue_eq, if_pos hlow, hv,
        goTruncate_idem d _ hms]
  · rcases le_or_lt millisecond d with h2 | h2
    · have hd0 : (0 : Int) ≤ d := le_trans (by decide) h2
      have hv : respTimeValue d = Duration.goTruncate d (10 * microsecond) := by
        rw [respTimeValue_eq, if_neg (not_le.mpr h1), if_pos h2]
      have hlow : millisecond ≤ respTimeValue d := by
        rw [hv]
        have hks : (10 * microsecond) * 100 = millisecond := by decide
        have := goTruncate_lower (d := d) (m := 10 * microsecond) (k := 100) hus hd0
          (by rw [hks]; exact h2)
        rw [hks] at this
        exact this
      have hup : respTimeValue d < second := lt_of_le_of_lt (hv ▸ goTruncate_le hus hd0) h1
      constructor
      · rw [respTimeBranch_eq, respTimeBranch_eq, if_neg (not_le.mpr hup), if_pos hlow,
          if_neg (not_le.mpr h1), if_pos h2]
      · rw [respTimeValue_eq d, if_neg (not_le.mpr h1), if_pos h2, ← hv, respTimeValue_eq,
          if_neg (not_le.mpr hup), if_pos hlow, hv, goTruncate_idem d _ hus]
    · have hsec : d < second := lt_trans h2 (by decide)
      have hv : respTimeValue d = Duration.goTruncate d microsecond := by
        rw [respTimeValue_eq, if_neg (not_le.mpr hsec), if_neg (not_le.mpr h2)]
      have hup : respTimeValue d < millisecond := by
        rcases le_or_lt 0 d with hd0 | hd0
        · exact lt_of_le_of_lt (hv ▸ goTruncate_le hu hd0) h2
        · have hnp := hv ▸ goTruncate_nonpos hu (le_of_lt hd0)
          exact lt_of_le_of_lt hnp (by decide)
      have hup2 : respTimeValue d < second := lt_trans hup (by decide)
      constructor
      · rw [respTimeBranch_eq, respTimeBranch_eq, if_neg (not_le.mpr hup2),
          if_neg (not_le.mpr hup), if_neg (not_le.mpr hsec), if_neg (not_le.mpr h2)]
      · rw [respTimeValue_eq d, if_neg (not_le.mpr hsec), if_neg (not_le.mpr h2), ← hv,
          respTimeValue_eq, if_neg (not_le.mpr hup2), if_neg (not_le.mpr hup), hv,
          goTruncate_idem d _ hu]

/-! ## Status-cell color (log.go 174-177, 190-194) -/

/-- The two `fatih/color` attributes used for the audit `Status` cell:
`color.New(color.FgGreen)` and `color.New(color.FgRed)` (log.go 174-177). -/
inductive CellColor
  | green
  | red
deriving DecidableEq

/-- The color assigned to the audit `Status` cell (log.go 190-194): green
when `event.Response.StatusCode == http.StatusOK` (`http.StatusOK` is 200),
red otherwise. -/
def statusColor (code : Int) : CellColor :=
  if code = 200 then CellColor.green else CellColor.red

/-- C6: for every response status code `c`, the audit status cell is colored
with the ok (green) color if and only if `c = 200`, and with the alert (red)
color otherwise. -/
theorem statusColor_ok_iff (c : Int) :
    (statusColor c = CellColor.green ↔ c = 200) ∧
    (statusColor c = CellColor.red ↔ c ≠ 200) := by
  unfold statusColor
  by_cases h : c = 200 <;> simp [h]

/-- Witness for `statusColor_ok_iff` at the codes 200 and 404. -/
theorem statusColor_ok_iff_w :
    statusColor 200 = CellColor.green ∧ statusColor 404 = CellColor.red :=
  ⟨(statusColor_ok_iff 200).1.mpr rfl, (statusColor_ok_iff 404).2.mpr (by decide)⟩

/-! ## Header fractional widths (log.go 139-143 and 222-223) -/

/-- The fractional column widths installed on the audit table header before
the first draw (log.go 139-143), as exact rationals. -/
def auditHeaderWidths : List ℚ := [0.12, 0.15, 0.15, 0.45, 0.12]

/-- The fractional column widths installed on the error table header before
the first draw (log.go 222-223), as exact rationals. -/
def errorHeaderWidths : List ℚ := [0.12, 0.87]

/-- C9: for both Header configurations installed before the first draw —
the audit table's 5 columns and the error table's 2 columns — the sum of
the fractional widths is at most 1. -/
theorem headerWidths_sum_le_one :
    auditHeaderWidths.sum ≤ 1 ∧ errorHeaderWidths.sum ≤ 1 := by
  constructor <;> norm_num [auditHeaderWidths, errorHeaderWidths]

/-! ## `--type` flag dispatch (log.go 95-129) -/

/-- `unicode.ToLower` as used by `strings.ToLower`, modelled on the ASCII
range: the uppercase letters `A`-`Z` map to `a`-`z`, all other characters
are returned unchanged. (Go's table-driven mapping agrees with this on
ASCII, and is likewise fixed on its own image.) -/
def runeToLower (c : Char) : Char :=
  if 65 ≤ c.toNat ∧ c.toNat ≤ 90 then Char.ofNat (c.toNat + 32) else c

/-- Go `strings.ToLower`: lower-case every rune of the string. -/
def goToLower (s : List Char) : List Char := s.map runeToLower

/-- The three outcomes of `switch strings.ToLower(typeFlag)` in `logTrace`
(log.go 95-129). -/
inductive TraceMode
  | audit
  | errorLog
  | invalidType
deriving DecidableEq

/-- Trace-mode selection (log.go 95-129): dispatch on the lower-cased
`--type` flag value; the `default` arm is the fatal invalid-type error
(line 128). -/
def selectTraceMode (typeFlag : List Char) : TraceMode :=
  if goToLower typeFlag = "audit".toList then TraceMode.audit
  else if goToLower typeFlag = "error".toList then TraceMode.errorLog
  else TraceMode.invalidType

theorem runeToLower_idem (c : Char) : runeToLower (runeToLower c) = runeToLower c := by
  by_cases h : 65 ≤ c.toNat ∧ c.toNat ≤ 90
  · have h1 : runeToLower c = Char.ofNat (c.toNat + 32) := by
      unfold runeToLower
      rw [if_pos h]
    have key : ∀ n ∈ Finset.Icc 65 90,
        ¬(65 ≤ (Char.ofNat (n + 32)).toNat ∧ (Char.ofNat (n + 32)).toNat ≤ 90) := by decide
    have h2 := key c.toNat (Finset.mem_Icc.mpr h)
    rw [h1]
    unfold runeToLower
    rw [if_neg h2]
  · have h1 : runeToLower c = c := by
      unfold runeToLower
      rw [if_neg h]
    rw [h1, h1]

theorem goToLower_idem (s : List Char) : goToLower (goToLower s) = goToLower s := by
  induction s with
  | nil => rfl
  | cons c cs ih =>
    simp only [goToLower, List.map_cons] at ih ⊢
    rw [runeToLower_idem c, ih]

/-- C10: the `--type` flag is matched case-insensitively: the trace mode
selected for `t` is the mode selected for the lower-cased form of `t`, and
any value whose lower-cased form is neither `audit` nor `error` hits the
fatal invalid-type arm (log.go 95-129). -/
theorem selectTraceMode_case_insensitive (t : List Char) :
    selectTraceMode t = selectTraceMode (goToLower t) ∧
    (goToLower t ≠ "audit".toList → goToLower t ≠ "error".toList →
      selectTraceMode t = TraceMode.invalidType) := by
  refine ⟨?_, fun h1 h2 => ?_⟩
  · unfold selectTraceMode
    rw [goToLower_idem]
  · unfold selectTraceMode
    rw [if_neg h1, if_neg h2]

/-- Witness for `selectTraceMode_case_insensitive`: the upper-cased flag
value `AUDIT` selects the audit mode, and `warn` is rejected. -/
theorem selectTraceMode_case_insensitive_w :
    selectTraceMode "AUDIT".toList = selectTraceMode (goToLower "AUDIT".toList) ∧
    selectTraceMode "AUDIT".toList = TraceMode.audit ∧
    selectTraceMode "warn".toList = TraceMode.invalidType :=
  ⟨(selectTraceMode_case_insensitive "AUDIT".toList).1,
   by decide,
   (selectTraceMode_case_insensitive "warn".toList).2 (by decide) (by decide)⟩

/-! ## Error-event formatter (log.go 252-276) -/

/-- Split a string at its first space: `some (before, after)` when a space
occurs, `none` otherwise. -/
def breakOnSpace : List Char → Option (List Char × List Char)
  | [] => none
  | c :: cs =>
    if c = ' ' then some ([], cs)
    else
      match breakOnSpace cs with
      | none => none
      | some (pre, post) => some (c :: pre, post)

/-- Go `strings.SplitN(s, " ", n)` for the single-space separator:
at most `n` substrings, the last one the unsplit remainder; `n = 0`
yields no substrings. -/
def splitNSpace : Nat → List Char → List (List Char)
  | 0, _ => []
  | 1, s => [s]
  | n + 2, s =>
    match breakOnSpace s with
    | none => [s]
    | some (pre, post) => pre :: splitNSpace (n + 1) post

/-- Go `strings.ReplaceAll(s, "\n", " ")` for the single-character pattern:
each newline character becomes one space. -/
def replaceNewlines (s : List Char) : List Char :=
  s.map fun c => if c = '\n' then ' ' else c

/-- `%02d`: decimal digits, zero-padded to width two. -/
def pad2 (n : Nat) : List Char :=
  if n < 10 then '0' :: Nat.toDigits 10 n else Nat.toDigits 10 n

/-- `fmt.Sprintf("%02d:%02d:%02d", hh, mm, ss)` (log.go 272). -/
def formatClock (hh mm ss : Nat) : List Char :=
  pad2 hh ++ ':' :: pad2 mm ++ ':' :: pad2 ss

/-- One iteration of the error-log consumer loop (log.go 252-276): the row
appended for a raw error message `m`. `(hh, mm, ss)` is the wall-clock
reading `time.Now().Clock()` used by the fallback arm (line 269). -/
def errorLogRowCells (hh mm ss : Nat) (m : List Char) : List (List Char) :=
  match splitNSpace 3 m with
  | [_, seg2, seg3] => [seg2, replaceNewlines seg3]
  | _ => [formatClock hh mm ss, replaceNewlines m]

theorem breakOnSpace_cons (c : Char) (cs : List Char) :
    breakOnSpace (c :: cs) =
      if c = ' ' then some ([], cs)
      else
        match breakOnSpace cs with
        | none => none
        | some (pre, post) => some (c :: pre, post) := rfl

theorem breakOnSpace_spec :
    ∀ (s pre post : List Char), breakOnSpace s = some (pre, post) →
      s = pre ++ ' ' :: post ∧ ' ' ∉ pre := by
  intro s
  induction s with
  | nil =>
    intro pre post h
    simp [breakOnSpace] at h
  | cons c cs ih =>
    intro pre post h
    rw [breakOnSpace_cons] at h
    by_cases hc : c = ' '
    · rw [if_pos hc] at h
      have h2 := Option.some.inj h
      have h2a : pre = [] := (congrArg Prod.fst h2).symm
      have h2b : post = cs := (congrArg Prod.snd h2).symm
      subst h2a
      subst h2b
      subst hc
      exact ⟨rfl, by simp⟩
    · rw [if_neg hc] at h
      cases hb : breakOnSpace cs with
      | none =>
        rw [hb] at h
        exact absurd h (by simp)
      | some pp =>
        obtain ⟨pre2, post2⟩ := pp
        rw [hb] at h
        have h2 : (some (c :: pre2, post2) : Option (List Char × List Char)) =
            some (pre, post) := h
        have h3 := Option.some.inj h2
        have h3a : pre = c :: pre2 := (congrArg Prod.fst h3).symm
        have h3b : post = post2 := (congrArg Prod.snd h3).symm
        subst h3a
        obtain ⟨hs, hnotin⟩ := ih pre2 post2 hb
        rw [h3b, hs]
        refine ⟨rfl, ?_⟩
        intro hmem
        rcases List.mem_cons.mp hmem with h4 | h4
        · exact hc h4.symm
        · exact hnotin h4

/-- If `SplitN(m, " ", 3)` yields exactly three segments, they decompose
`m` at its first two spaces. -/
theorem splitNSpace3_decomp (m s1 s2 s3 : List Char)
    (h : splitNSpace 3 m = [s1, s2, s3]) :
    m = s1 ++ ' ' :: s2 ++ ' ' :: s3 ∧ ' ' ∉ s1 ∧ ' ' ∉ s2 := by
  have h3 : splitNSpace 3 m =
      match breakOnSpace m with
      | none => [m]
      | some (pre, post) => pre :: splitNSpace 2 post := rfl
  rw [h3] at h
  cases hb : breakOnSpace m with
  | none =>
    rw [hb] at h
    simp at h
  | some pp =>
    obtain ⟨pre, post⟩ := pp
    rw [hb] at h
    have h' : pre :: splitNSpace 2 post = [s1, s2, s3] := h
    have h4 : splitNSpace 2 post =
        match breakOnSpace post with
        | none => [post]
        | some (pre2, post2) => pre2 :: splitNSpace 1 post2 := rfl
    rw [h4] at h'
    cases hb2 : breakOnSpace post with
    | none =>
      rw [hb2] at h'
      simp at h'
    | some qq =>
      obtain ⟨pre2, post2⟩ := qq
      rw [hb2] at h'
      have h'' : pre :: pre2 :: [post2] = [s1, s2, s3] := h'
      have e : pre = s1 ∧ pre2 = s2 ∧ post2 = s3 := by simpa using h''
      obtain ⟨e1, e2, e3⟩ := e
      obtain ⟨hm, hn1⟩ := breakOnSpace_spec m pre post hb
      obtain ⟨hp, hn2⟩ := breakOnSpace_spec post pre2 post2 hb2
      refine ⟨?_, ?_, ?_⟩
      · rw [hm, hp, ← e1, ← e2, ← e3]
        simp
      · rw [← e1]
        exact hn1
      · rw [← e2]
        exact hn2

theorem replaceNewlines_no_newline (s : List Char) :
    ('\n' : Char) ∉ replaceNewlines s := by
  unfold replaceNewlines
  intro hmem
  obtain ⟨c, _, hc⟩ := List.mem_map.mp hmem
  by_cases h : c = '\n' <;> simp [h] at hc

/-- C4: for every raw error-message string `m` the formatter produces a
2-cell row and never fails: when `SplitN(m, " ", 3)` yields exactly 3
segments — which decompose `m` at its first two space boundaries — the
time cell is segment 2 and the message cell is segment 3 with every
newline replaced by a single space; otherwise the time cell is the current
wall clock rendered `HH:MM:SS` and the message cell is the whole raw
message with newlines replaced by spaces. The message cell never contains
a newline. -/
theorem errorLogRow_spec (m : List Char) (hh mm ss : Nat) :
    (errorLogRowCells hh mm ss m).length = 2 ∧
    (∀ s1 s2 s3, splitNSpace 3 m = [s1, s2, s3] →
      m = s1 ++ ' ' :: s2 ++ ' ' :: s3 ∧ ' ' ∉ s1 ∧ ' ' ∉ s2 ∧
      errorLogRowCells hh mm ss m = [s2, replaceNewlines s3]) ∧
    ((splitNSpace 3 m).length ≠ 3 →
      errorLogRowCells hh mm ss m = [formatClock hh mm ss, replaceNewlines m]) ∧
    (∀ s, ('\n' : Char) ∉ replaceNewlines s) := by
  refine ⟨?_, fun s1 s2 s3 h => ?_, fun h => ?_, replaceNewlines_no_newline⟩
  · unfold errorLogRowCells
    cases hsp : splitNSpace 3 m with
    | nil => rfl
    | cons a t =>
      cases t with
      | nil => rfl
      | cons b t2 =>
        cases t2 with
        | nil => rfl
        | cons c t3 =>
          cases t3 with
          | nil => rfl
          | cons d t4 => rfl
  · obtain ⟨hm, hn1, hn2⟩ := splitNSpace3_decomp m s1 s2 s3 h
    refine ⟨hm, hn1, hn2, ?_⟩
    unfold errorLogRowCells
    rw [h]
  · unfold errorLogRowCells
    cases hsp : splitNSpace 3 m with
    | nil => rfl
    | cons a t =>
      cases t with
      | nil => rfl
      | cons b t2 =>
        cases t2 with
        | nil => rfl
        | cons c t3 =>
          cases t3 with
          | nil => exact absurd (by rw [hsp]; rfl) h
          | cons d t4 => rfl

/-- Witness for `errorLogRow_spec`: the spec's two scenario messages, one
with a date/time prefix and one without. -/
theorem errorLogRow_spec_w :
    errorLogRowCells 10 2 3 "23/04/01 10:02:03 disk full on volume X".toList =
      ["10:02:03".toList, replaceNewlines "disk full on volume X".toList] ∧
    errorLogRowCells 10 2 3 "disk full".toList =
      [formatClock 10 2 3, replaceNewlines "disk full".toList] :=
  ⟨((errorLogRow_spec "23/04/01 10:02:03 disk full on volume X".toList 10 2 3).2.1
      "23/04/01".toList "10:02:03".toList "disk full on volume X".toList
      (by decide)).2.2.2,
   (errorLogRow_spec "disk full".toList 10 2 3).2.2.1 (by decide)⟩

/-! ## Table row buffer under data and resize events (log.go 159-172, 179-209) -/

/-- Modelled from the spec: the `xterm.Table` row buffer. The `xterm`
package (`internal/xterm`) is part of the repository but its source is not
under `src/`; per §4.3 of the spec, `AddRow` "appends to the buffered row
sequence" and "does not itself paint", and `Draw` is an idempotent full
repaint "from current Table state". We track the buffered rows and the
number of paints issued. -/
structure TableState (ρ : Type) where
  rows : List ρ
  paints : Nat

/-- Modelled from the spec: `Table.AddRow` appends the row. -/
def TableState.addRow {ρ : Type} (t : TableState ρ) (r : ρ) : TableState ρ :=
  { t with rows := t.rows ++ [r] }

/-- Modelled from the spec: `Table.Draw` repaints and leaves the buffered
rows unchanged. -/
def TableState.draw {ρ : Type} (t : TableState ρ) : TableState ρ :=
  { t with paints := t.paints + 1 }

/-- The two Table-touching inputs of a trace UI session: a stream event
arriving at the consumer loop (log.go 179) and a terminal resize arriving
at the listener (log.go 163). -/
inductive UIInput (ε : Type)
  | data (e : ε)
  | resize

/-- Effect of one input on the Table, read off log.go: the consumer loop
body formats the event and calls `table.AddRow` then `table.Draw`
(lines 207-208); the resize arm calls only `table.Draw` (line 164). -/
def tableStep {ε ρ : Type} (fmtRow : ε → ρ) (t : TableState ρ) : UIInput ε → TableState ρ
  | UIInput.data e => (t.addRow (fmtRow e)).draw
  | UIInput.resize => t.draw

/-- Run a whole interleaving of inputs against the Table. -/
def tableRun {ε ρ : Type} (fmtRow : ε → ρ) (t : TableState ρ) :
    List (UIInput ε) → TableState ρ
  | [] => t
  | i :: is => tableRun fmtRow (tableStep fmtRow t i) is

/-- The data events of an input interleaving, in arrival order. -/
def dataEvents {ε : Type} : List (UIInput ε) → List ε
  | [] => []
  | UIInput.data e :: is => e :: dataEvents is
  | UIInput.resize :: is => dataEvents is

theorem tableRun_rows_general {ε ρ : Type} (fmtRow : ε → ρ)
    (inputs : List (UIInput ε)) :
    ∀ t : TableState ρ,
      (tableRun fmtRow t inputs).rows = t.rows ++ (dataEvents inputs).map fmtRow := by
  induction inputs with
  | nil =>
    intro t
    simp [tableRun, dataEvents]
  | cons i is ih =>
    intro t
    cases i with
    | data e =>
      simp only [tableRun, tableStep, dataEvents, List.map_cons, ih,
        TableState.addRow, TableState.draw, List.append_assoc, List.cons_append,
        List.nil_append]
    | resize =>
      simp only [tableRun, tableStep, dataEvents, ih, TableState.draw]

/-- C7: for any interleaving of data events and resize events, the Table's
buffered rows at the end of the run are exactly the formatted data events
in stream arrival order, starting from the empty table: rows are appended
only by the data path (log.go 207), and resize events (log.go 163-164)
never insert, remove, or reorder buffered rows. -/
theorem tableRun_rows {ε ρ : Type} (fmtRow : ε → ρ) (inputs : List (UIInput ε)) :
    (tableRun fmtRow (TableState.mk [] 0) inputs).rows =
      (dataEvents inputs).map fmtRow := by
  rw [tableRun_rows_general]
  rfl

/-! ## Exit paths and terminal release (log.go 103-110, 137-213, 252-280)

`stdlog.Fatalf` is Go's `log.Fatalf`: equivalent to `Printf` followed by
`os.Exit(1)`, and `os.Exit` terminates the process without running
deferred calls. The traces below record each observable action of the
relevant control-flow path in program order. -/

/-- Observable process-level actions of `kes log trace`. -/
inductive Action
  | initUI
  | drawTable
  | addRow
  | printEventLine
  | reportFatal
  | closeUI
  | exitProcess (code : Nat)
deriving DecidableEq

/-- The sequence of observable actions performed by the main goroutine of
`traceAuditLogWithUI` (log.go 137-213), as a function of the session
outcome: whether `ui.Init` (line 153) fails, how many events the stream
yields before `Next` returns false, and whether `stream.Err()` (line 210)
is non-nil at that point. The deferred `ui.Close` and final `table.Draw`
(lines 156-157, LIFO order) run only on the normal-return path, because
`stdlog.Fatalf` (lines 154, 211) exits via `os.Exit`, which skips
deferred calls. -/
def auditUITrace (initFails : Bool) (nEvents : Nat) (errAtEnd : Bool) : List Action :=
  if initFails then [Action.reportFatal, Action.exitProcess 1]
  else
    Action.initUI :: Action.drawTable ::
      ((List.replicate nEvents [Action.addRow, Action.drawTable]).flatten ++
        (if errAtEnd then [Action.reportFatal, Action.exitProcess 1]
         else [Action.closeUI, Action.drawTable]))

/-- The observable actions of the non-interactive audit path of `logTrace`
(log.go 103-110): one printed line per event, then — when `stream.Next()`
returns false, whether after a signal-triggered `Close` or a remote
stream end — the unconditional
`stdlog.Fatalf("Error: audit log closed with: %v", stream.Err())` at
line 108, reached regardless of whether `stream.Err()` is nil. The
parameter records whether the stream ended in error; the control flow
does not consult it. -/
def nonInteractiveAuditTrace (nEvents : Nat) (_errAtEnd : Bool) : List Action :=
  List.replicate nEvents Action.printEventLine ++
    [Action.reportFatal, Action.exitProcess 1]

/-- The first exit code occurring in a trace, if any: `none` means the
modelled function returned normally and the process goes on to exit 0
from `main`. -/
def exitCode : List Action → Option Nat
  | [] => none
  | Action.exitProcess k :: _ => some k
  | _ :: tr => exitCode tr

/-- C1 (refutation; code bug): on an abnormal stream end — `stream.Err()`
non-nil with no preceding cancel — `traceAuditLogWithUI` reports the fatal
error and exits while the terminal is still in UI mode: after a successful
`ui.Init`, the trace reaches `reportFatal` and `exitProcess 1` but never
performs `closeUI`, because `log.Fatalf` (line 211) exits without running
the deferred `ui.Close` (line 157). The claim requires `closeUI` before
any fatal report and on every exit path. -/
theorem auditUITrace_fatal_skips_release :
    auditUITrace false 1 true =
      [Action.initUI, Action.drawTable, Action.addRow, Action.drawTable,
        Action.reportFatal, Action.exitProcess 1] ∧
    Action.initUI ∈ auditUITrace false 1 true ∧
    Action.reportFatal ∈ auditUITrace false 1 true ∧
    Action.exitProcess 1 ∈ auditUITrace false 1 true ∧
    Action.closeUI ∉ auditUITrace false 1 true := by
  refine ⟨rfl, ?_, ?_, ?_, ?_⟩ <;> decide

/-- Actions a single goroutine can perform on the shared Table or stream. -/
inductive GoroutineAction
  | draw
  | addRowTo
  | closeStream
deriving DecidableEq

/-- Polled terminal events seen by the listener goroutine (log.go 159-172). -/
inductive PolledEvent
  | resizeEvt
  | cancelKey
  | otherEvt

/-- Shared-state actions of the listener goroutine per polled event, read
off log.go 162-170: a resize event makes this goroutine call `table.Draw()`
itself (line 164); a Ctrl-C/Escape key makes it call `stream.Close()`
(line 166); other events do nothing. -/
def listenerActions : PolledEvent → List GoroutineAction
  | PolledEvent.resizeEvt => [GoroutineAction.draw]
  | PolledEvent.cancelKey => [GoroutineAction.closeStream]
  | PolledEvent.otherEvt => []

/-- Shared-state actions of one iteration of the data-consumer loop body,
performed by the main goroutine (log.go 179-209): `table.AddRow` then
`table.Draw` (lines 207-208). -/
def consumerLoopActions : List GoroutineAction :=
  [GoroutineAction.addRowTo, GoroutineAction.draw]

/-- C2 (refutation; code bug): `table.Draw` is issued directly from two
distinct concurrent activities with no hand-off or mutual exclusion: the
resize arm of the listener goroutine paints (log.go 164), and the data
consumer's loop body paints (log.go 208). The claim requires that at most
one concurrent activity ever calls `Table.draw()`. -/
theorem draw_called_from_two_activities :
    GoroutineAction.draw ∈ listenerActions PolledEvent.resizeEvt ∧
    GoroutineAction.draw ∈ consumerLoopActions := by
  refine ⟨?_, ?_⟩ <;> decide

/-- C3 (refutation; code bug): a user-requested cancel in the
non-interactive output mode that reaches a clean end of stream
(`stream.Err()` nil) still terminates the process with exit code 1, not 0:
log.go line 108 calls `log.Fatalf` unconditionally after the print loop.
The interactive path, by contrast, returns normally on a clean close
(no forced exit in its trace). -/
theorem nonInteractive_clean_cancel_exits_one :
    exitCode (nonInteractiveAuditTrace 2 false) = some 1 ∧
    exitCode (nonInteractiveAuditTrace 2 false) ≠ some 0 ∧
    exitCode (auditUITrace false 2 false) = none := by
  refine ⟨?_, ?_, ?_⟩ <;> decide

end KesLog
